import Mathlib

/-!
# Verification of the Annotate package's text-fitting and rendering code

Shallow embedding of the Go package `Annotate` (file `annotate.go`, the
compiling variant of the module).  Go `int32` values are modelled as `ℤ`
(the program's arithmetic stays far from the 2^31 boundary on every input
considered here); Go `float64` values (`dpi`, `lineHeight`) are exact
rationals carried as a numerator/denominator pair (`GoFloat`) — the one
float computation of the code, `int32(c.lineHeight * float64(fontSize))`,
is evaluated exactly, with the Go conversion `int32(x)` (truncation
toward zero) made explicit; Go strings are byte sequences, modelled as
`List ℕ`; Go's
`strings.Split`, `strings.Join`, `filepath.Ext` and `strings.ToLower`
are reproduced on these byte sequences.  The freetype font engine, the
image codecs and the operating system are external collaborators: they are
modelled as oracle functions carried by the `Font` / `OsEnv` structures.
-/

namespace Annotate

/-- Go byte string (Go strings are byte sequences; the code indexes bytes). -/
abbrev GoStr := List ℕ

/-- Bytes of an ASCII Lean string literal, for readable concrete inputs. -/
def strBytes (s : String) : GoStr := s.data.map Char.toNat

/-- A `float64` value as the exact rational `num / den` (`den > 0` by
convention).  Every `float64` is such a rational; the code's single float
computation is modelled exactly, which coincides with the float result
whenever the product is representable (it is on all inputs considered). -/
structure GoFloat where
  num : ℤ
  den : ℤ
deriving DecidableEq, Repr

/-- `int32(f * float64(n))` — the exact product truncated toward zero
(Go's float-to-int conversion); `Int.tdiv` is truncating division. -/
def truncMul (f : GoFloat) (n : ℤ) : ℤ :=
  (f.num * n).tdiv f.den

/-- `⌊f * n⌋` — the mathematical floor of the same product, as §4.2 of the
spec states it (`Int.fdiv` is floor division).  Equal to `truncMul` when
the product is non-negative. -/
def floorMul (f : GoFloat) (n : ℤ) : ℤ :=
  Int.fdiv (f.num * n) f.den

/-- `Rectangle` — the text bounding box (`X, Y, Width, Height int32`). -/
structure Rectangle where
  X : ℤ
  Y : ℤ
  Width : ℤ
  Height : ℤ
deriving DecidableEq, Repr

/-- `Color` — RGBA data (`R, G, B, A uint32`). -/
structure Color where
  R : ℕ
  G : ℕ
  B : ℕ
  A : ℕ
deriving DecidableEq, Repr

/-- Go `image.Rectangle` (the bounds of an image), `Min`/`Max` points. -/
structure GoRect where
  minX : ℤ
  minY : ℤ
  maxX : ℤ
  maxY : ℤ
deriving DecidableEq, Repr

/-- A decoded raster image: its bounds and its pixels.  Decoding, encoding
and compositing of images are external pass-throughs, so nothing more of
`image.Image` is needed. -/
structure GoImage where
  bounds : GoRect
  pix : ℤ → ℤ → Color

/-- `image.NewRGBA(b)` — a fresh, all-zero image with bounds `b`. -/
def newRGBA (b : GoRect) : GoImage :=
  { bounds := b, pix := fun _ _ => ⟨0, 0, 0, 0⟩ }

/-- `image.NewUniform(c)` — the infinite uniform image of color `c`
(its declared bounds are irrelevant; every pixel is `c`). -/
def uniformImage (c : Color) : GoImage :=
  { bounds := ⟨0, 0, 0, 0⟩, pix := fun _ _ => c }

/-- `draw.Draw(dst, r, src, image.ZP, 0)` — composite `src` over `dst`
inside `r` (op 0 = `draw.Over`).  Compositing itself is an external
collaborator; only which image it is applied to matters to the claims. -/
def drawOver (dst : GoImage) (r : GoRect) (src : GoImage) : GoImage :=
  { bounds := dst.bounds
    pix := fun x y =>
      if r.minX ≤ x ∧ x < r.maxX ∧ r.minY ≤ y ∧ y < r.maxY then src.pix x y
      else dst.pix x y }

/-- The parsed `truetype.Font` together with the freetype rasterizer's
behaviour, as an oracle: `index` is `font.Index(rune)`, `hMetricAdvance`
is `font.HMetric(size, idx).AdvanceWidth`, `kerning` is
`font.Kerning(size, i1, i2)`, and `raster words x y` is the outcome of
`imageContext.DrawString(words, Point{x<<8, y<<8})` — `none` for success,
`some e` for the error value `e`. -/
structure Font where
  index : ℕ → ℕ
  hMetricAdvance : ℤ → ℕ → ℤ
  kerning : ℤ → ℕ → ℕ → ℤ
  raster : GoStr → ℤ → ℤ → Option ℕ

/-- `Line` — one wrapped line of the layout. -/
structure Line where
  Words : List GoStr
  XPos : ℤ
  YPos : ℤ
  currWidth : ℤ
  BaseToBaseHeight : ℤ
deriving DecidableEq, Repr

/-- The zero value `&Line{}` appended by the wrapping loop. -/
def emptyLine : Line := ⟨[], 0, 0, 0, 0⟩

/-- `Context` — the configuration aggregate. -/
structure Context where
  src : GoImage
  fontBackground : GoImage
  font : Font
  maxFontSize : ℤ
  dpi : GoFloat
  lineHeight : GoFloat
  fontColor : GoImage
  fontSize : ℤ

/-- `SetSrc` — set the source image and allocate the font background. -/
def SetSrc (c : Context) (src : GoImage) : Context :=
  { c with src := src, fontBackground := newRGBA src.bounds }

/-- `SetFontColor` — a solid color for fonts (`image.NewUniform`). -/
def SetFontColor (c : Context) (rgbaColor : Color) : Context :=
  { c with fontColor := uniformImage rgbaColor }

/-- `SetFontImage` — draw `backgroundImage` over the font background
buffer (`draw.Draw(c.fontBackground, c.fontBackground.Bounds(), bg, ZP, 0)`). -/
def SetFontImage (c : Context) (backgroundImage : GoImage) : Context :=
  { c with fontBackground :=
      drawOver c.fontBackground c.fontBackground.bounds backgroundImage }

/-- The character loop of `wordWidth`: advance width of every byte plus the
kerning adjustment between each adjacent pair (none after the last byte). -/
def wordWidthChars (f : Font) (fontSize : ℤ) : List ℕ → ℤ
  | [] => 0
  | [ch] => f.hMetricAdvance fontSize (f.index ch)
  | ch :: ch2 :: rest =>
    f.hMetricAdvance fontSize (f.index ch) +
      f.kerning fontSize (f.index ch) (f.index ch2) +
      wordWidthChars f fontSize (ch2 :: rest)

/-- `(c *Context) wordWidth(word, fontSize)`. -/
def wordWidth (c : Context) (word : GoStr) (fontSize : ℤ) : ℤ :=
  wordWidthChars c.font fontSize word

/-- `c.wordWidth(" ", fontSize)` — the inter-word space width. -/
def spaceWidth (c : Context) (fontSize : ℤ) : ℤ :=
  wordWidth c [32] fontSize

/-- Go `strings.Split(s, sep)` for a one-byte separator: always at least one
part; consecutive separators yield empty parts; `Split("", sep) = [""]`. -/
def splitOnByte (sep : ℕ) : GoStr → List GoStr
  | [] => [[]]
  | b :: rest =>
    let r := splitOnByte sep rest
    if b = sep then [] :: r
    else (b :: r.headD []) :: r.tail

/-- Go `strings.Join(words, " ")`. -/
def joinSpace (words : List GoStr) : GoStr :=
  (List.intersperse [32] words).flatten

/-- `currLine.Words = append(currLine.Words, word)` followed by
`currLine.currWidth += dw` on the line being built. -/
def addWord (l : Line) (word : GoStr) (dw : ℤ) : Line :=
  { l with Words := l.Words ++ [word], currWidth := l.currWidth + dw }

/-- The inner word loop of `calculateSize` (lines being `[]*Line` with the
current line its last element): for each word, if
`wordWidth + currLine.currWidth + spaceWidth > boundingBox.Width` a fresh
line is appended, then the word is appended to the last line and
`spaceWidth + wordWidth` accumulated into its width. -/
def wrapWords (width sp : ℤ) (ww : GoStr → ℤ) : List GoStr → List Line → List Line
  | [], lines => lines
  | word :: ws, lines =>
    let w := ww word
    let lines1 := if w + (lines.getLastD emptyLine).currWidth + sp > width
      then lines ++ [emptyLine] else lines
    wrapWords width sp ww ws
      (lines1.dropLast ++ [addWord (lines1.getLastD emptyLine) word (sp + w)])

/-- One iteration of the hard-line loop: append a fresh `&Line{}` and wrap
the hard line's words (`strings.Split(hardLine, " ")`). -/
def wrapHard (c : Context) (bb : Rectangle) (fontSize sp : ℤ)
    (lines : List Line) (hardLine : GoStr) : List Line :=
  wrapWords bb.Width sp (fun w => wordWidth c w fontSize)
    (splitOnByte 32 hardLine) (lines ++ [emptyLine])

/-- The wrapping phase of `calculateSize` (its lines 218–237): split the text
on `"\n"` into hard lines and greedily wrap each one's words. -/
def wrapLines (c : Context) (text : GoStr) (bb : Rectangle) (fontSize : ℤ) :
    List Line :=
  (splitOnByte 10 text).foldl
    (wrapHard c bb fontSize (spaceWidth c fontSize)) []

/-- The positioning loop of `calculateSize` (its lines 239–256): `py` is
`none` at the first line (which gets `YPos += bb.Y`,
`BaseToBaseHeight = fontSize`), and `some y` afterwards, `y` the previous
line's placed `YPos` (`YPos += lines[i-1].YPos + overHeadSpace`,
`BaseToBaseHeight = overHeadSpace` with
`overHeadSpace = int32(c.lineHeight*float64(fontSize)) + fontSize`);
every line gets `XPos += bb.X`; the second component is the running
`totalHeight` (sum of `BaseToBaseHeight`). -/
def positionLoop (c : Context) (bb : Rectangle) (fontSize : ℤ) :
    List Line → Option ℤ → List Line × ℤ
  | [], _ => ([], 0)
  | l :: rest, py =>
    let pair : ℤ × ℤ :=
      match py with
      | none => (l.YPos + bb.Y, fontSize)
      | some y =>
        let overHeadSpace := truncMul c.lineHeight fontSize + fontSize
        (l.YPos + y + overHeadSpace, overHeadSpace)
    let l2 := { l with XPos := l.XPos + bb.X, YPos := pair.1,
                       BaseToBaseHeight := pair.2 }
    let r := positionLoop c bb fontSize rest (some pair.1)
    (l2 :: r.1, pair.2 + r.2)

/-- One layout probe: wrap the text at `fontSize`, position the lines, and
return them with the total height (sum of `BaseToBaseHeight` plus the
bottom buffer `int32(c.lineHeight * float64(fontSize))`). -/
def layoutAttempt (c : Context) (text : GoStr) (bb : Rectangle)
    (fontSize : ℤ) : List Line × ℤ :=
  let r := positionLoop c bb fontSize (wrapLines c text bb fontSize) none
  (r.1, r.2 + truncMul c.lineHeight fontSize)

/-- `larger(a, b)`. -/
def larger (a b : ℤ) : ℤ :=
  if a ≥ b then a else b

/-- `int32(math.Floor(float64(a+b)/2 + 0.5))` — the midpoint rounded half
up, i.e. `⌊(a+b+1)/2⌋` (exact: the float64 arithmetic on these values is
exact). -/
def goMid (a b : ℤ) : ℤ :=
  Int.fdiv (a + b + 1) 2

/-- `calculateSize`, with explicit fuel standing for the call stack: the Go
function recurses without bound, so `none` means the fuel ran out before
the recursion returned.  Everything else is a faithful transcription of
lines 215–281: probe the layout at `fontSize`; if this is the first attempt
and it fits, return; if it fits, bisect upward toward `c.maxFontSize`
remembering `fontSize` as the last fit; if not, bisect downward toward
`lastFit`; when the probe and `lastFit` are adjacent integers return
`larger(lastFit, fontSize)` together with the current probe's lines. -/
def calculateSizeFuel (c : Context) (text : GoStr) (bb : Rectangle) :
    ℕ → ℤ → ℤ → ℤ → Option (Bool × List Line × ℤ)
  | 0, _, _, _ => none
  | fuel + 1, fontSize, attempt, lastFit =>
    let L := layoutAttempt c text bb fontSize
    let att := attempt + 1
    if att = 0 ∧ L.2 ≤ bb.Height then some (true, L.1, fontSize)
    else if L.2 ≤ bb.Height then
      if fontSize = lastFit then some (true, L.1, fontSize)
      else if (fontSize - lastFit).natAbs = 1 then
        some (true, L.1, larger lastFit fontSize)
      else calculateSizeFuel c text bb fuel
        (goMid fontSize c.maxFontSize) att fontSize
    else
      if (fontSize - lastFit).natAbs = 1 then
        some (true, L.1, larger lastFit fontSize)
      else calculateSizeFuel c text bb fuel (goMid fontSize lastFit) att lastFit

/-- Fuel that dominates the recursion depth of `calculateSize` for every
`maxFontSize ≥ 1` (the search needs far fewer calls; see the claims). -/
def defaultCalcFuel (m : ℤ) : ℕ :=
  (m.toNat + 2) * (m.toNat + 2)

/-- `c.calculateSize(text, boundingBox, c.maxFontSize, -1, 0)` as invoked by
`WriteText`.  The default value is never reached when `maxFontSize ≥ 1`. -/
def calculateSize (c : Context) (text : GoStr) (bb : Rectangle) :
    Bool × List Line × ℤ :=
  (calculateSizeFuel c text bb (defaultCalcFuel c.maxFontSize)
      c.maxFontSize (-1) 0).getD (true, [], c.maxFontSize)

/-- The number of layout probes (calls of `calculateSize`) the size search
performs, on the same recursion as `calculateSizeFuel`. -/
def calcProbesFuel (c : Context) (text : GoStr) (bb : Rectangle) :
    ℕ → ℤ → ℤ → ℤ → Option ℕ
  | 0, _, _, _ => none
  | fuel + 1, fontSize, attempt, lastFit =>
    let L := layoutAttempt c text bb fontSize
    let att := attempt + 1
    if att = 0 ∧ L.2 ≤ bb.Height then some 1
    else if L.2 ≤ bb.Height then
      if fontSize = lastFit then some 1
      else if (fontSize - lastFit).natAbs = 1 then some 1
      else (calcProbesFuel c text bb fuel
        (goMid fontSize c.maxFontSize) att fontSize).map (· + 1)
    else
      if (fontSize - lastFit).natAbs = 1 then some 1
      else (calcProbesFuel c text bb fuel
        (goMid fontSize lastFit) att lastFit).map (· + 1)

/-- The canvas `drawLines` paints: the fresh RGBA copy of the source image
(`rbga`), the freetype context's configuration (paint source
`c.fontColor`, dpi, font size, clip = source bounds), and the strings
drawn so far with their positions. -/
structure RenderedImage where
  base : GoImage
  srcPaint : GoImage
  dpi : GoFloat
  fontSize : ℤ
  clip : GoRect
  drawn : List (GoStr × ℤ × ℤ)

/-- The line loop of `drawLines`: join each line's words with single spaces
and draw at `(XPos, YPos)`; a drawing error aborts the remaining lines and
is returned together with the canvas as drawn so far. -/
def drawLoop (f : Font) : List Line → RenderedImage → Option ℕ × RenderedImage
  | [], img => (none, img)
  | line :: rest, img =>
    let words := joinSpace line.Words
    match f.raster words line.XPos line.YPos with
    | some e => (some e, img)
    | none =>
      drawLoop f rest
        { img with drawn := img.drawn ++ [(words, line.XPos, line.YPos)] }

/-- `(c *Context) drawLines(lines, boundingBox, fontSize)`: allocate a fresh
copy of `c.src`, configure the freetype context (font, dpi, src paint
`c.fontColor`, dst, hinting, font size, clip `c.src.Bounds()`), and draw
each line.  The `boundingBox` parameter is unused by the Go code. -/
def drawLines (c : Context) (lines : List Line) (boundingBox : Rectangle)
    (fontSize : ℤ) : Option ℕ × RenderedImage :=
  let _ := boundingBox
  drawLoop c.font lines
    { base := c.src, srcPaint := c.fontColor, dpi := c.dpi,
      fontSize := fontSize, clip := c.src.bounds, drawn := [] }

/-- `WriteText(text, boundingBox)`. -/
def WriteText (c : Context) (text : GoStr) (boundingBox : Rectangle) :
    Option ℕ × RenderedImage :=
  let r := calculateSize c text boundingBox
  drawLines c r.2.1 boundingBox r.2.2

/-! ### Loading a source image by path (`SetSrcPath`) -/

/-- Scan of `filepath.Ext` over the reversed path: walk back from the end;
a path separator first means no extension, a `.` first means the suffix
from that dot.  `acc` holds the bytes already passed, in forward order. -/
def extAux (acc : GoStr) : GoStr → GoStr
  | [] => []
  | b :: rest =>
    if b = 47 then []
    else if b = 46 then 46 :: acc
    else extAux (b :: acc) rest

/-- `filepath.Ext(path)` — the suffix beginning at the final dot of the
final path element, or `""` when there is none. -/
def goExt (path : GoStr) : GoStr :=
  extAux [] path.reverse

/-- `strings.ToLower` on a byte (ASCII; the paths considered are ASCII). -/
def toLowerByte (b : ℕ) : ℕ :=
  if 65 ≤ b ∧ b ≤ 90 then b + 32 else b

/-- `strings.ToLower(s)`. -/
def goToLower (s : GoStr) : GoStr :=
  s.map toLowerByte

/-- The operating system and the image codecs, as oracles: `osOpen` is
`os.Open(path)` (`ok` a file handle, `error` an I/O error code), and the
decoders are `png.Decode` / `jpeg.Decode` on that handle. -/
structure OsEnv where
  osOpen : GoStr → Except ℕ ℕ
  pngDecode : ℕ → Except ℕ GoImage
  jpegDecode : ℕ → Except ℕ GoImage

/-- The error values `SetSrcPath` can return: the I/O error from
`os.Open`, the package's own `UnsupportedError(extension)`, or a decoder
error. -/
inductive AnnotateError where
  | ioError (code : ℕ)
  | unsupported (extension : GoStr)
  | decodeError (code : ℕ)
deriving DecidableEq, Repr

/-- `Error()` of each error value; `UnsupportedError.Error()` is
`"Image format not supported: " + string(f)`.  The other two wrap
external error strings, modelled by their codes. -/
def errorMessage : AnnotateError → GoStr
  | .ioError code => strBytes "io error " ++ [code]
  | .unsupported extension => strBytes "Image format not supported: " ++ extension
  | .decodeError code => strBytes "decode error " ++ [code]

/-- `SetSrcPath(path)`: open the file, switch on the lowercased extension
(`.png` / `.jpg` / `.jpeg`), decode, and only on success set `c.src` and
allocate `c.fontBackground`.  The pair is (returned error, receiver after
the call): an early `return err` leaves the receiver untouched, which the
second component makes explicit. -/
def SetSrcPath (env : OsEnv) (c : Context) (path : GoStr) :
    Option AnnotateError × Context :=
  match env.osOpen path with
  | .error e => (some (.ioError e), c)
  | .ok imageRaw =>
    let extension := goToLower (goExt path)
    if extension = strBytes ".png" then
      match env.pngDecode imageRaw with
      | .error e => (some (.decodeError e), c)
      | .ok imageDecoded =>
        (none, { c with src := imageDecoded,
                        fontBackground := newRGBA imageDecoded.bounds })
    else if extension = strBytes ".jpg" ∨ extension = strBytes ".jpeg" then
      match env.jpegDecode imageRaw with
      | .error e => (some (.decodeError e), c)
      | .ok imageDecoded =>
        (none, { c with src := imageDecoded,
                        fontBackground := newRGBA imageDecoded.bounds })
    else (some (.unsupported extension), c)

/-! ### Derived measures used by the claims -/

/-- The sum of the `wordWidth`s of a line's words. -/
def lineWordsWidth (c : Context) (fontSize : ℤ) (l : Line) : ℤ :=
  (l.Words.map (fun w => wordWidth c w fontSize)).sum

/-- A line's total rendered width as the spec counts it: the sum of its
word widths plus one inter-word space per gap (none for an empty line). -/
def renderedWidth (c : Context) (fontSize : ℤ) (l : Line) : ℤ :=
  if l.Words = [] then 0
  else lineWordsWidth c fontSize l +
    ((l.Words.length : ℤ) - 1) * spaceWidth c fontSize

/-! ### Concrete instances the evaluation theorems run on -/

/-- A font whose glyphs all have advance width 0 and kerning 0 (layout
height then equals the font size when `lineHeight = 0`). -/
def zeroFont : Font := ⟨fun b => b, fun _ _ => 0, fun _ _ _ => 0, fun _ _ _ => none⟩

/-- A font with advance width 1 for every glyph and kerning 0. -/
def oneFont : Font := ⟨fun b => b, fun _ _ => 1, fun _ _ _ => 0, fun _ _ _ => none⟩

/-- A font with advance width 10 for every glyph and kerning 0. -/
def tenFont : Font := ⟨fun b => b, fun _ _ => 10, fun _ _ _ => 0, fun _ _ _ => none⟩

/-- An all-zero 1×1 source image. -/
def imgZero : GoImage := newRGBA ⟨0, 0, 1, 1⟩

/-- The float value 0. -/
def fzero : GoFloat := ⟨0, 1⟩

/-- Context for the C1 run: `zeroFont`, `maxFontSize = 10`,
`lineHeight = 0` — the layout at size `s` has total height `s`. -/
def ctxC1 : Context := ⟨imgZero, imgZero, zeroFont, 10, fzero, fzero, imgZero, 0⟩

/-- Box of height 8 for the C1 run: exactly the sizes `s ≤ 8` fit. -/
def bbC1 : Rectangle := ⟨0, 0, 100, 8⟩

/-- Context for the C2 probe count: `maxFontSize = 16384`. -/
def ctxC2 : Context := ⟨imgZero, imgZero, zeroFont, 16384, fzero, fzero, imgZero, 0⟩

/-- Box of height 6922 for the C2 probe count (a worst case for
`maxFontSize = 16384`, found by exhaustive search over box heights). -/
def bbC2 : Rectangle := ⟨0, 0, 100, 6922⟩


/-- A context over `oneFont` (`maxFontSize = 10`, `lineHeight = 0`):
`spaceWidth = 1` and every one-byte word has width 1. -/
def ctxOne : Context := ⟨imgZero, imgZero, oneFont, 10, fzero, fzero, imgZero, 0⟩

/-- A 100×50 box at the origin. -/
def bbC3 : Rectangle := ⟨0, 0, 100, 50⟩

/-- A context over `tenFont` (`maxFontSize = 5`): each byte is 10px wide. -/
def ctxTen : Context := ⟨imgZero, imgZero, tenFont, 5, fzero, fzero, imgZero, 0⟩

/-- A 50px-wide box (the over-wide word scenario). -/
def bbC4 : Rectangle := ⟨0, 0, 50, 1000⟩

/-- A box of height 0: no font size `≥ 1` can fit it. -/
def bbC5 : Rectangle := ⟨0, 0, 100, 0⟩

/-- A context whose `lineHeight` is the negative float −1/2, where Go's
`int32` truncation and the spec's `floor` differ. -/
def ctxNegLH : Context := ⟨imgZero, imgZero, zeroFont, 10, fzero, ⟨-1, 2⟩, imgZero, 0⟩

/-- Context for the second C2 probe count: `maxFontSize = 65536`. -/
def ctxC2b : Context := ⟨imgZero, imgZero, zeroFont, 65536, fzero, fzero, imgZero, 0⟩

/-- Box of height 15063 (a worst case for `maxFontSize = 65536`). -/
def bbC2b : Rectangle := ⟨0, 0, 100, 15063⟩

/-- An OS on which every open succeeds (and decoders succeed). -/
def envOpenOk : OsEnv := ⟨fun _ => .ok 1, fun _ => .ok imgZero, fun _ => .ok imgZero⟩

/-- An OS on which every open fails with error code 2 (no such file). -/
def envOpenFail : OsEnv := ⟨fun _ => .error 2, fun _ => .ok imgZero, fun _ => .ok imgZero⟩

/-- A zero-metrics font whose rasterizer fails with error 7 exactly on the
string `"b"`. -/
def failFont : Font :=
  ⟨fun b => b, fun _ _ => 0, fun _ _ _ => 0,
    fun s _ _ => if s = [98] then some 7 else none⟩

/-- A context over `failFont` (`maxFontSize = 5`). -/
def ctxFail : Context := ⟨imgZero, imgZero, failFont, 5, fzero, fzero, imgZero, 0⟩

/-- A roomy 100×100 box. -/
def bbBig : Rectangle := ⟨0, 0, 100, 100⟩

/-- The wrap loop's per-line invariant at box width `W` and space width
`sp`: the accumulated `currWidth` counts one leading `sp` per word, and a
line that got a second word did so under the guard, so its `currWidth`
stays within `W`. -/
def WrapInv (W sp : ℤ) (f : GoStr → ℤ) (l : Line) : Prop :=
  l.currWidth = (l.Words.map f).sum + (l.Words.length : ℤ) * sp ∧
    (2 ≤ l.Words.length → l.currWidth ≤ W)


theorem wrapInv_emptyLine (W sp : ℤ) (f : GoStr → ℤ) : WrapInv W sp f emptyLine := by
  constructor
  · simp [emptyLine]
  · intro h
    simp [emptyLine] at h

theorem mem_of_mem_dropLast {α : Type} {x : α} :
    ∀ {l : List α}, x ∈ l.dropLast → x ∈ l := by
  intro l h
  exact List.dropLast_subset l h

theorem getLastD_cases {α : Type} (l : List α) (d : α) :
    l.getLastD d = d ∨ l.getLastD d ∈ l := by
  cases l with
  | nil => exact Or.inl rfl
  | cons a t =>
    right
    rw [List.getLastD_eq_getLast?]
    cases h : (a :: t).getLast? with
    | none => simp at h
    | some b =>
      simp only [Option.getD_some]
      obtain ⟨hne, hb⟩ := List.mem_getLast?_eq_getLast (by rw [h]; rfl)
      rw [hb]
      exact List.getLast_mem hne

theorem wrapWords_inv (W sp : ℤ) (f : GoStr → ℤ) :
    ∀ (ws : List GoStr) (lines : List Line),
      (∀ l ∈ lines, WrapInv W sp f l) →
      ∀ l ∈ wrapWords W sp f ws lines, WrapInv W sp f l := by
  intro ws
  induction ws with
  | nil =>
    intro lines h l hl
    exact h l hl
  | cons w ws ih =>
    intro lines h l hl
    rw [wrapWords] at hl
    by_cases hg : f w + (lines.getLastD emptyLine).currWidth + sp > W
    · rw [if_pos hg] at hl
      refine ih _ ?_ l hl
      intro l2 hl2
      rw [List.dropLast_concat] at hl2
      rcases List.mem_append.mp hl2 with h1 | h1
      · exact h l2 h1
      · have : l2 = addWord ((lines ++ [emptyLine]).getLastD emptyLine) w (sp + f w) := by
          simpa using h1
        subst this
        have he : (lines ++ [emptyLine]).getLastD emptyLine = emptyLine := by
          simp [List.getLastD_concat]
        rw [he]
        constructor
        · simp [addWord, emptyLine]
          ring
        · intro hlen
          simp [addWord, emptyLine] at hlen
    · rw [if_neg hg] at hl
      refine ih _ ?_ l hl
      intro l2 hl2
      rcases List.mem_append.mp hl2 with h1 | h1
      · exact h l2 (mem_of_mem_dropLast h1)
      · have hl2e : l2 = addWord (lines.getLastD emptyLine) w (sp + f w) := by
          simpa using h1
        subst hl2e
        have hlast : WrapInv W sp f (lines.getLastD emptyLine) := by
          rcases getLastD_cases lines emptyLine with h2 | h2
          · rw [h2]; exact wrapInv_emptyLine W sp f
          · exact h _ h2
        push_neg at hg
        obtain ⟨e1, e2⟩ := hlast
        constructor
        · simp only [addWord, List.map_append, List.sum_append, List.length_append,
            List.map_cons, List.map_nil, List.sum_cons, List.sum_nil, List.length_cons,
            List.length_nil]
          rw [e1]
          push_cast
          ring
        · intro _
          simp only [addWord]
          omega

theorem wrapHard_inv (c : Context) (bb : Rectangle) (fontSize sp : ℤ)
        (lines : List Line) (hardLine : GoStr)
    (h : ∀ l ∈ lines, WrapInv bb.Width sp (fun w => wordWidth c w fontSize) l) :
    ∀ l ∈ wrapHard c bb fontSize sp lines hardLine,
      WrapInv bb.Width sp (fun w => wordWidth c w fontSize) l := by
  intro l hl
  refine wrapWords_inv _ _ _ _ _ ?_ l hl
  intro l2 hl2
  rcases List.mem_append.mp hl2 with h1 | h1
  · exact h l2 h1
  · have : l2 = emptyLine := by simpa using h1
    rw [this]
    exact wrapInv_emptyLine _ _ _

theorem wrapLines_inv (c : Context) (text : GoStr) (bb : Rectangle)
    (fontSize : ℤ) :
    ∀ l ∈ wrapLines c text bb fontSize,
      WrapInv bb.Width (spaceWidth c fontSize)
        (fun w => wordWidth c w fontSize) l := by
  rw [wrapLines]
  generalize splitOnByte 10 text = hs
  have h0 : ∀ l ∈ ([] : List Line),
      WrapInv bb.Width (spaceWidth c fontSize)
        (fun w => wordWidth c w fontSize) l := by
    intro l hl
    simp at hl
  revert h0
  generalize ([] : List Line) = init
  induction hs generalizing init with
  | nil =>
    intro h0 l hl
    exact h0 l hl
  | cons hd tl ih =>
    intro h0 l hl
    rw [List.foldl_cons] at hl
    exact ih _ (wrapHard_inv c bb fontSize _ init hd h0) l hl

/-- Core of claim C3: every wrapped line is within the box width or is a
lone over-wide word (the one lemma `C3_wrapCorrectness` combines with
`wrap_overwide_alone`). -/
theorem wrap_line_cases (c : Context) (text : GoStr) (bb : Rectangle)
    (fontSize : ℤ) (l : Line)
    (hW : 0 ≤ bb.Width) (hsp : 0 ≤ spaceWidth c fontSize)
    (hl : l ∈ wrapLines c text bb fontSize) :
    renderedWidth c fontSize l ≤ bb.Width ∨
      (l.Words.length = 1 ∧
        bb.Width < wordWidth c (l.Words.headD []) fontSize) := by
  obtain ⟨e1, e2⟩ := wrapLines_inv c text bb fontSize l hl
  match hWords : l.Words with
  | [] =>
    left
    simp [renderedWidth, hWords, hW]
  | [w0] =>
    by_cases hw0 : wordWidth c w0 fontSize ≤ bb.Width
    · left
      simp [renderedWidth, hWords, lineWordsWidth, hw0]
    · right
      refine ⟨by simp [hWords], ?_⟩
      simp [hWords]
      omega
  | w0 :: w1 :: ws =>
    left
    have hlen : 2 ≤ l.Words.length := by rw [hWords]; simp only [List.length_cons]; omega
    have hcw := e2 hlen
    have : renderedWidth c fontSize l =
        l.currWidth - spaceWidth c fontSize := by
      rw [renderedWidth, if_neg (by rw [hWords]; simp)]
      rw [lineWordsWidth, e1]
      ring
    omega

theorem wrap_overwide_alone (c : Context) (text : GoStr) (bb : Rectangle)
    (fontSize : ℤ) (l : Line) (w : GoStr)
    (hsp : 0 ≤ spaceWidth c fontSize)
    (hnn : ∀ u : GoStr, 0 ≤ wordWidth c u fontSize)
    (hl : l ∈ wrapLines c text bb fontSize)
    (hw : w ∈ l.Words) (hover : bb.Width < wordWidth c w fontSize) :
    l.Words = [w] := by
  obtain ⟨e1, e2⟩ := wrapLines_inv c text bb fontSize l hl
  match hWords : l.Words with
  | [] => rw [hWords] at hw; simp at hw
  | [w0] =>
    rw [hWords] at hw
    simp at hw
    rw [hw]
  | w0 :: w1 :: ws =>
    exfalso
    have hlen : 2 ≤ l.Words.length := by rw [hWords]; simp only [List.length_cons]; omega
    have hcw := e2 hlen
    have hsum : wordWidth c w fontSize ≤ (l.Words.map (fun u => wordWidth c u fontSize)).sum := by
      refine List.single_le_sum ?_ _ ?_
      · intro x hx
        obtain ⟨u, _, hu⟩ := List.mem_map.mp hx
        rw [← hu]
        exact hnn u
      · exact List.mem_map_of_mem _ hw
    have hns : 0 ≤ (l.Words.length : ℤ) * spaceWidth c fontSize :=
      mul_nonneg (by positivity) hsp
    omega

/-- The wrap loop only ever appends `&Line{}` records and `addWord` never
touches a line's position fields, so every wrapped line still has
`XPos = 0`, `YPos = 0`. -/
theorem wrapWords_zeroPos (W sp : ℤ) (f : GoStr → ℤ) :
    ∀ (ws : List GoStr) (lines : List Line),
      (∀ l ∈ lines, l.XPos = 0 ∧ l.YPos = 0) →
      ∀ l ∈ wrapWords W sp f ws lines, l.XPos = 0 ∧ l.YPos = 0 := by
  intro ws
  induction ws with
  | nil =>
    intro lines h l hl
    exact h l hl
  | cons w ws ih =>
    intro lines h l hl
    rw [wrapWords] at hl
    set lines1 := if f w + (lines.getLastD emptyLine).currWidth + sp > W
        then lines ++ [emptyLine] else lines with hlines1
    have hall : ∀ l2 ∈ lines1, l2.XPos = 0 ∧ l2.YPos = 0 := by
      rw [hlines1]
      by_cases hg : f w + (lines.getLastD emptyLine).currWidth + sp > W
      · rw [if_pos hg]
        intro l2 hl2
        rcases List.mem_append.mp hl2 with h1 | h1
        · exact h l2 h1
        · have : l2 = emptyLine := by simpa using h1
          rw [this]
          exact ⟨rfl, rfl⟩
      · rw [if_neg hg]
        exact h
    refine ih _ ?_ l hl
    intro l2 hl2
    rcases List.mem_append.mp hl2 with h1 | h1
    · exact hall l2 (mem_of_mem_dropLast h1)
    · have hl2e : l2 = addWord (lines1.getLastD emptyLine) w (sp + f w) := by
        simpa using h1
      rw [hl2e]
      simp only [addWord]
      rcases getLastD_cases lines1 emptyLine with h2 | h2
      · rw [h2]; exact ⟨rfl, rfl⟩
      · exact hall _ h2

theorem wrapLines_zeroPos (c : Context) (text : GoStr) (bb : Rectangle)
    (fontSize : ℤ) :
    ∀ l ∈ wrapLines c text bb fontSize, l.XPos = 0 ∧ l.YPos = 0 := by
  rw [wrapLines]
  have h0 : ∀ l ∈ ([] : List Line), l.XPos = 0 ∧ l.YPos = 0 := by
    intro l hl
    simp at hl
  revert h0
  generalize ([] : List Line) = init
  generalize splitOnByte 10 text = hs
  induction hs generalizing init with
  | nil =>
    intro h0 l hl
    exact h0 l hl
  | cons hd tl ih =>
    intro h0 l hl
    rw [List.foldl_cons] at hl
    refine ih _ ?_ l hl
    intro l2 hl2
    refine wrapWords_zeroPos _ _ _ _ _ ?_ l2 hl2
    intro l3 hl3
    rcases List.mem_append.mp hl3 with h1 | h1
    · exact h0 l3 h1
    · have : l3 = emptyLine := by simpa using h1
      rw [this]
      exact ⟨rfl, rfl⟩

/-- Positioning does not change the word content of the lines. -/
theorem positionLoop_words (c : Context) (bb : Rectangle) (fontSize : ℤ) :
    ∀ (ls : List Line) (py : Option ℤ),
      (positionLoop c bb fontSize ls py).1.map Line.Words = ls.map Line.Words := by
  intro ls
  induction ls with
  | nil => intro py; rfl
  | cons l rest ih =>
    intro py
    cases py with
    | none => simp [positionLoop, ih]
    | some y => simp [positionLoop, ih]

/-- The spec of the positioning loop in subsequent-line mode (`some py`):
every produced line has `XPos = bb.X` and the constant
`overHeadSpace` base-to-base height, the first one sits `overHeadSpace`
below `py`, consecutive lines are chained by their base-to-base heights,
and the returned height is the sum of the base-to-base heights. -/
theorem positionLoop_some_spec (c : Context) (bb : Rectangle) (fontSize : ℤ) :
    ∀ (ls : List Line) (py : ℤ),
      (∀ l ∈ ls, l.XPos = 0 ∧ l.YPos = 0) →
      (∀ l ∈ (positionLoop c bb fontSize ls (some py)).1,
          l.XPos = bb.X ∧
          l.BaseToBaseHeight = truncMul c.lineHeight fontSize + fontSize) ∧
      (∀ l0, ((positionLoop c bb fontSize ls (some py)).1).head? = some l0 →
          l0.YPos = py + l0.BaseToBaseHeight) ∧
      List.Chain' (fun a b => b.YPos = a.YPos + b.BaseToBaseHeight)
        (positionLoop c bb fontSize ls (some py)).1 ∧
      (positionLoop c bb fontSize ls (some py)).2 =
        ((positionLoop c bb fontSize ls (some py)).1.map
          Line.BaseToBaseHeight).sum := by
  intro ls
  induction ls with
  | nil =>
    intro py h
    refine ⟨?_, ?_, ?_, ?_⟩ <;> simp [positionLoop]
  | cons l rest ih =>
    intro py h
    have hl := h l (by simp)
    have hrest : ∀ l2 ∈ rest, l2.XPos = 0 ∧ l2.YPos = 0 := by
      intro l2 hl2
      exact h l2 (by simp [hl2])
    obtain ⟨ihx, ihh, ihc, ihs⟩ := ih (l.YPos + py + (truncMul c.lineHeight fontSize + fontSize)) hrest
    simp only [positionLoop]
    refine ⟨?_, ?_, ?_, ?_⟩
    · intro l2 hl2
      rcases List.mem_cons.mp hl2 with h1 | h1
      · rw [h1]
        exact ⟨by simp [hl.1], rfl⟩
      · exact ihx l2 h1
    · intro l0 hl0
      simp only [List.head?_cons, Option.some.injEq] at hl0
      rw [← hl0]
      simp [hl.2]
    · rw [List.chain'_cons']
      constructor
      · intro y hy
        exact ihh y hy
      · exact ihc
    · simp only [List.map_cons, List.sum_cons, ihs]

/-- Claim C6 (amended): for every layout probe, the first line has
`YPos = box.Y` and `BaseToBaseHeight = fontSize`; every later line has
the constant `BaseToBaseHeight = int32(lineHeight*fontSize) + fontSize`
(Go truncation toward zero, where the claim said `floor`) and sits that
far below its predecessor; every line has `XPos = box.X`; and the total
height compared against `box.Height` is the sum of the base-to-base
heights plus one `int32(lineHeight*fontSize)` of bottom padding. -/
theorem C6_linePositioning (c : Context) (text : GoStr) (bb : Rectangle)
    (fontSize : ℤ) :
    (∀ l ∈ (layoutAttempt c text bb fontSize).1, l.XPos = bb.X) ∧
    (∀ l0, ((layoutAttempt c text bb fontSize).1).head? = some l0 →
        l0.YPos = bb.Y ∧ l0.BaseToBaseHeight = fontSize) ∧
    (∀ l ∈ ((layoutAttempt c text bb fontSize).1).tail,
        l.BaseToBaseHeight = truncMul c.lineHeight fontSize + fontSize) ∧
    List.Chain' (fun a b => b.YPos = a.YPos + b.BaseToBaseHeight)
      (layoutAttempt c text bb fontSize).1 ∧
    (layoutAttempt c text bb fontSize).2 =
      ((layoutAttempt c text bb fontSize).1.map Line.BaseToBaseHeight).sum +
        truncMul c.lineHeight fontSize := by
  have hz := wrapLines_zeroPos c text bb fontSize
  rw [layoutAttempt]
  cases hw : wrapLines c text bb fontSize with
  | nil =>
    refine ⟨?_, ?_, ?_, ?_, ?_⟩ <;> simp [positionLoop]
  | cons l rest =>
    rw [hw] at hz
    have hl := hz l (by simp)
    have hrest : ∀ l2 ∈ rest, l2.XPos = 0 ∧ l2.YPos = 0 := by
      intro l2 hl2
      exact hz l2 (by simp [hl2])
    obtain ⟨ihx, ihh, ihc, ihs⟩ :=
      positionLoop_some_spec c bb fontSize rest (l.YPos + bb.Y) hrest
    simp only [positionLoop]
    refine ⟨?_, ?_, ?_, ?_, ?_⟩
    · intro l2 hl2
      rcases List.mem_cons.mp hl2 with h1 | h1
      · rw [h1]; simp [hl.1]
      · exact (ihx l2 h1).1
    · intro l0 hl0
      simp only [List.head?_cons, Option.some.injEq] at hl0
      rw [← hl0]
      exact ⟨by simp [hl.2], rfl⟩
    · intro l2 hl2
      simp only [List.tail_cons] at hl2
      exact (ihx l2 hl2).2
    · rw [List.chain'_cons']
      exact ⟨fun y hy => ihh y hy, ihc⟩
    · simp only [List.map_cons, List.sum_cons, ihs]

/-- A text with no separator byte splits into itself alone. -/
theorem splitOnByte_eq_single (sep : ℕ) :
    ∀ (s : GoStr), sep ∉ s → splitOnByte sep s = [s] := by
  intro s
  induction s with
  | nil => intro _; rfl
  | cons b rest ih =>
    intro h
    have hb : ¬ b = sep := fun he => h (by rw [he]; exact List.mem_cons_self _ _)
    have hrest : sep ∉ rest := fun hm => h (List.mem_cons_of_mem _ hm)
    rw [splitOnByte]
    simp only [if_neg hb, ih hrest]
    rfl

/-- Claim C4 (amended): for a text that is a single word (no spaces, no
newlines) wider than the box at the probed size, the wrapping phase of
`calculateSize` produces exactly two lines — an empty first line and a
second line containing exactly that word — and the positioned layout
carries the same words. -/
theorem C4_overwideWordTwoLines (c : Context) (text : GoStr) (bb : Rectangle)
    (fontSize : ℤ)
    (h32 : 32 ∉ text) (h10 : 10 ∉ text)
    (hsp : 0 ≤ spaceWidth c fontSize)
    (hover : bb.Width < wordWidth c text fontSize) :
    wrapLines c text bb fontSize =
      [emptyLine,
        ⟨[text], 0, 0, spaceWidth c fontSize + wordWidth c text fontSize, 0⟩] ∧
    (layoutAttempt c text bb fontSize).1.map Line.Words = [[], [text]] := by
  have hwrap : wrapLines c text bb fontSize =
      [emptyLine,
        ⟨[text], 0, 0, spaceWidth c fontSize + wordWidth c text fontSize, 0⟩] := by
    rw [wrapLines, splitOnByte_eq_single 10 text h10]
    rw [List.foldl_cons, List.foldl_nil, wrapHard,
      splitOnByte_eq_single 32 text h32]
    rw [wrapWords]
    rw [if_pos (by simp [emptyLine]; omega)]
    rw [wrapWords]
    simp [addWord, emptyLine]
  refine ⟨hwrap, ?_⟩
  rw [layoutAttempt]
  simp only [positionLoop_words, hwrap]
  rfl

/-- The midpoint in terms of Euclidean division (`omega`-friendly form). -/
theorem goMid_eq (a b : ℤ) : goMid a b = (a + b + 1) / 2 := by
  rw [goMid, Int.fdiv_eq_ediv]
  omega

/-- When no size fits, the search only ever takes the no-fit branch: it
halves the probe toward `lastFit = 0` and stops at probe 1, returning
size 1 with the layout computed at size 1. -/
theorem calcFuel_nofit (c : Context) (text : GoStr) (bb : Rectangle)
    (H : ∀ s : ℤ, 1 ≤ s → bb.Height < (layoutAttempt c text bb s).2) :
    ∀ (fuel : ℕ) (s a : ℤ), 1 ≤ s → s.toNat < fuel →
      calculateSizeFuel c text bb fuel s a 0 =
        some (true, (layoutAttempt c text bb 1).1, 1) := by
  intro fuel
  induction fuel with
  | zero =>
    intro s a h1 h2
    omega
  | succ n ih =>
    intro s a h1 h2
    have hnof : ¬ (layoutAttempt c text bb s).2 ≤ bb.Height :=
      not_le.mpr (H s h1)
    rw [calculateSizeFuel]
    simp only [if_neg (fun h => hnof (And.right h)), if_neg hnof]
    by_cases hs1 : s = 1
    · subst hs1
      rw [if_pos (by decide)]
      rfl
    · have hge : 2 ≤ s := by omega
      rw [if_neg (by omega), goMid_eq]
      have h1' : 1 ≤ (s + 0 + 1) / 2 := by omega
      have h2' : ((s + 0 + 1) / 2).toNat < n := by omega
      exact ih _ (a + 1) h1' h2'

/-- Claim C5: when no font size `≥ 1` yields a layout of height at most
`box.Height`, the size search returns size 1 together with its (possibly
overflowing) layout instead of failing, and `WriteText` proceeds to
render exactly that layout. -/
theorem C5_degenerateFit (c : Context) (text : GoStr) (bb : Rectangle)
    (hM : 1 ≤ c.maxFontSize)
    (H : ∀ s : ℤ, 1 ≤ s → bb.Height < (layoutAttempt c text bb s).2) :
    calculateSize c text bb = (true, (layoutAttempt c text bb 1).1, 1) ∧
    WriteText c text bb = drawLines c (layoutAttempt c text bb 1).1 bb 1 := by
  have hfuel : (c.maxFontSize).toNat < defaultCalcFuel c.maxFontSize := by
    rw [defaultCalcFuel]
    calc c.maxFontSize.toNat < c.maxFontSize.toNat + 2 := by omega
    _ ≤ (c.maxFontSize.toNat + 2) * (c.maxFontSize.toNat + 2) :=
        Nat.le_mul_of_pos_right _ (by omega)
  have h := calcFuel_nofit c text bb H (defaultCalcFuel c.maxFontSize)
    c.maxFontSize (-1) hM hfuel
  have hcs : calculateSize c text bb =
      (true, (layoutAttempt c text bb 1).1, 1) := by
    rw [calculateSize, h]
    rfl
  refine ⟨hcs, ?_⟩
  rw [WriteText, hcs]

/-- The line-drawing loop on a split `pre ++ l :: post` where every line of
`pre` draws and `l` fails: the error is returned with exactly `pre`'s
joined strings appended to the canvas. -/
theorem drawLoop_fail (f : Font) (l : Line) (post : List Line) (e : ℕ)
    (hfail : f.raster (joinSpace l.Words) l.XPos l.YPos = some e) :
    ∀ (pre : List Line) (img : RenderedImage),
      (∀ p ∈ pre, f.raster (joinSpace p.Words) p.XPos p.YPos = none) →
      drawLoop f (pre ++ l :: post) img =
        (some e,
          { img with
              drawn := img.drawn ++
                pre.map (fun p => (joinSpace p.Words, p.XPos, p.YPos)) }) := by
  intro pre
  induction pre with
  | nil =>
    intro img hpre
    rw [List.nil_append, drawLoop, hfail]
    simp
  | cons p pre ih =>
    intro img hpre
    have hp := hpre p (by simp)
    rw [List.cons_append, drawLoop, hp]
    rw [ih _ (fun q hq => hpre q (by simp [hq]))]
    simp

/-- Claim C9: if drawing some line fails, `drawLines` draws no subsequent
line and `WriteText` returns that error together with the partially
drawn canvas — the fresh copy of the source image holding exactly the
lines drawn before the failure. -/
theorem C9_renderFailurePartialCanvas (c : Context) (text : GoStr)
    (bb : Rectangle) (pre post : List Line) (l : Line) (e : ℕ)
    (hsplit : (calculateSize c text bb).2.1 = pre ++ l :: post)
    (hpre : ∀ p ∈ pre, c.font.raster (joinSpace p.Words) p.XPos p.YPos = none)
    (hfail : c.font.raster (joinSpace l.Words) l.XPos l.YPos = some e) :
    WriteText c text bb =
      (some e,
        { base := c.src, srcPaint := c.fontColor, dpi := c.dpi,
          fontSize := (calculateSize c text bb).2.2, clip := c.src.bounds,
          drawn := pre.map (fun p => (joinSpace p.Words, p.XPos, p.YPos)) }) := by
  rw [WriteText]
  show drawLines c (calculateSize c text bb).2.1 bb (calculateSize c text bb).2.2 = _
  rw [drawLines, hsplit, drawLoop_fail c.font l post e hfail pre _ hpre]
  simp

/-- A `Context` differing only in `fontBackground` positions lines
identically (the positioning reads only `lineHeight`). -/
theorem positionLoop_fb (c : Context) (X : GoImage) (bb : Rectangle)
    (fontSize : ℤ) :
    ∀ (ls : List Line) (py : Option ℤ),
      positionLoop { c with fontBackground := X } bb fontSize ls py =
        positionLoop c bb fontSize ls py := by
  intro ls
  induction ls with
  | nil => intro py; rfl
  | cons l rest ih =>
    intro py
    cases py with
    | none => simp only [positionLoop, ih]
    | some y => simp only [positionLoop, ih]

/-- A `Context` differing only in `fontBackground` probes layouts
identically. -/
theorem layoutAttempt_fb (c : Context) (X : GoImage) (text : GoStr)
    (bb : Rectangle) (fontSize : ℤ) :
    layoutAttempt { c with fontBackground := X } text bb fontSize =
      layoutAttempt c text bb fontSize := by
  rw [layoutAttempt, layoutAttempt, positionLoop_fb]
  rfl

/-- A `Context` differing only in `fontBackground` runs the size search
identically. -/
theorem calculateSizeFuel_fb (c : Context) (X : GoImage) (text : GoStr)
    (bb : Rectangle) :
    ∀ (fuel : ℕ) (s a lf : ℤ),
      calculateSizeFuel { c with fontBackground := X } text bb fuel s a lf =
        calculateSizeFuel c text bb fuel s a lf := by
  intro fuel
  induction fuel with
  | zero => intro s a lf; rfl
  | succ n ih =>
    intro s a lf
    rw [calculateSizeFuel, calculateSizeFuel]
    simp only [layoutAttempt_fb, ih]

/-- The drawing loop never changes the paint source recorded on the
canvas. -/
theorem drawLoop_srcPaint (f : Font) :
    ∀ (ls : List Line) (img : RenderedImage),
      ((drawLoop f ls img).2).srcPaint = img.srcPaint := by
  intro ls
  induction ls with
  | nil => intro img; rfl
  | cons l rest ih =>
    intro img
    rw [drawLoop]
    cases f.raster (joinSpace l.Words) l.XPos l.YPos with
    | none => rw [ih]
    | some e => rfl

/-- `WriteText` ignores the `fontBackground` buffer entirely. -/
theorem WriteText_fb (c : Context) (X : GoImage) (text : GoStr)
    (bb : Rectangle) :
    WriteText { c with fontBackground := X } text bb = WriteText c text bb := by
  rw [WriteText, WriteText, calculateSize, calculateSize]
  rw [calculateSizeFuel_fb]
  rfl

/-- Claim C10: the output of `WriteText` is independent of any image
installed via `SetFontImage` — contexts differing only in that call (or
in its argument) produce identical results, and the canvas records
`fontColor` (set by `SetFontColor`) as its only paint source. -/
theorem C10_fontImageIndependence (c : Context) (img1 img2 : GoImage)
    (text : GoStr) (bb : Rectangle) :
    WriteText (SetFontImage c img1) text bb = WriteText c text bb ∧
    WriteText (SetFontImage c img1) text bb =
      WriteText (SetFontImage c img2) text bb ∧
    (WriteText c text bb).2.srcPaint = c.fontColor := by
  have h1 : WriteText (SetFontImage c img1) text bb = WriteText c text bb :=
    WriteText_fb c _ text bb
  have h2 : WriteText (SetFontImage c img2) text bb = WriteText c text bb :=
    WriteText_fb c _ text bb
  refine ⟨h1, by rw [h1, h2], ?_⟩
  rw [WriteText, drawLines, drawLoop_srcPaint]

/-- Claim C8 (amended): on a path the OS can open whose lowercased
extension is none of `.png`/`.jpg`/`.jpeg`, `SetSrcPath` reports
`UnsupportedError` naming exactly that extension and leaves every
`Context` field unchanged; the error message is the fixed prefix
followed by the extension. -/
theorem C8_unsupportedExtension (env : OsEnv) (c : Context) (path : GoStr)
    (handle : ℕ)
    (hopen : env.osOpen path = .ok handle)
    (hpng : goToLower (goExt path) ≠ strBytes ".png")
    (hjpg : goToLower (goExt path) ≠ strBytes ".jpg")
    (hjpeg : goToLower (goExt path) ≠ strBytes ".jpeg") :
    SetSrcPath env c path =
      (some (.unsupported (goToLower (goExt path))), c) ∧
    errorMessage (.unsupported (goToLower (goExt path))) =
      strBytes "Image format not supported: " ++ goToLower (goExt path) := by
  refine ⟨?_, rfl⟩
  rw [SetSrcPath, hopen]
  simp only [if_neg hpng, if_neg (not_or.mpr ⟨hjpg, hjpeg⟩)]

theorem wordWidthChars_nonneg (f : Font) (s : ℤ)
    (ha : ∀ t i, 0 ≤ f.hMetricAdvance t i)
    (hk : ∀ t i j, 0 ≤ f.kerning t i j) :
    ∀ w : List ℕ, 0 ≤ wordWidthChars f s w := by
  intro w
  induction w with
  | nil => simp [wordWidthChars]
  | cons ch rest ih =>
    cases rest with
    | nil =>
      have h1 := ha s (f.index ch)
      simpa [wordWidthChars] using h1
    | cons ch2 t =>
      have h1 := ha s (f.index ch)
      have h2 := hk s (f.index ch) (f.index ch2)
      rw [wordWidthChars]
      omega

set_option maxRecDepth 4000 in
/-- Claim C1, the code evaluated at its failing input: with zero-width
metrics, `lineHeight = 0`, box height 8 and `maxFontSize = 10`, size 8
fits (first conjunct) yet the search returns size 9 with the layout
probed at size 9, whose total height 9 overflows the box, and
`WriteText` renders that overflowing layout. -/
theorem C1_searchReturnsNonFittingSize :
    (layoutAttempt ctxC1 [97] bbC1 8).2 ≤ bbC1.Height ∧
    calculateSize ctxC1 [97] bbC1 = (true, (layoutAttempt ctxC1 [97] bbC1 9).1, 9) ∧
    bbC1.Height < (layoutAttempt ctxC1 [97] bbC1 9).2 ∧
    WriteText ctxC1 [97] bbC1 =
      drawLines ctxC1 (layoutAttempt ctxC1 [97] bbC1 9).1 bbC1 9 := by
  refine ⟨by decide, by decide, by decide, ?_⟩
  rw [WriteText,
    show calculateSize ctxC1 [97] bbC1 =
      (true, (layoutAttempt ctxC1 [97] bbC1 9).1, 9) from by decide]

set_option maxRecDepth 8000 in
/-- Claim C2, the code evaluated at failing inputs: the size search
performs 93 layout probes at `maxFontSize = 2^14` (box height 6922) and
121 probes at `maxFontSize = 2^16` (box height 15063) — far above
`log2(maxFontSize)` (14 and 16) and growing quadratically in it, not
linearly as O(log maxFontSize) demands. -/
theorem C2_probeCountExceedsLog :
    calcProbesFuel ctxC2 [97] bbC2 (defaultCalcFuel ctxC2.maxFontSize)
      ctxC2.maxFontSize (-1) 0 = some 93 ∧
    ctxC2.maxFontSize = 16384 ∧ (2:ℕ) ^ 14 = 16384 ∧
    calcProbesFuel ctxC2b [97] bbC2b (defaultCalcFuel ctxC2b.maxFontSize)
      ctxC2b.maxFontSize (-1) 0 = some 121 ∧
    ctxC2b.maxFontSize = 65536 ∧ (2:ℕ) ^ 16 = 65536 := by
  refine ⟨by decide, by decide, by decide, by decide, by decide, by decide⟩

/-- Claim C3: for a box of non-negative width, non-negative space width
and non-negative word widths, every line of the wrapping phase either
has rendered width (word widths plus inter-word spaces) at most
`box.Width`, or is a single word whose own width exceeds `box.Width`;
and any over-wide word occupies its line alone. -/
theorem C3_wrapCorrectness (c : Context) (text : GoStr) (bb : Rectangle)
    (fontSize : ℤ) (l : Line) (w : GoStr)
    (hW : 0 ≤ bb.Width) (hsp : 0 ≤ spaceWidth c fontSize)
    (hnn : ∀ u : GoStr, 0 ≤ wordWidth c u fontSize)
    (hl : l ∈ wrapLines c text bb fontSize) (hw : w ∈ l.Words) :
    (renderedWidth c fontSize l ≤ bb.Width ∨
      (l.Words.length = 1 ∧
        bb.Width < wordWidth c (l.Words.headD []) fontSize)) ∧
    (bb.Width < wordWidth c w fontSize → l.Words = [w]) :=
  ⟨wrap_line_cases c text bb fontSize l hW hsp hl,
    fun hover => wrap_overwide_alone c text bb fontSize l w hsp hnn hl hw hover⟩

/-- Witness for claim C3 at a concrete wrap. -/
theorem C3_wrapCorrectness_witness :
    (renderedWidth ctxOne 3 ⟨[[97]], 0, 0, 2, 0⟩ ≤ bbC3.Width ∨
      ((⟨[[97]], 0, 0, 2, 0⟩ : Line).Words.length = 1 ∧
        bbC3.Width <
          wordWidth ctxOne ((⟨[[97]], 0, 0, 2, 0⟩ : Line).Words.headD []) 3)) ∧
    (bbC3.Width < wordWidth ctxOne [97] 3 →
      (⟨[[97]], 0, 0, 2, 0⟩ : Line).Words = [[97]]) :=
  C3_wrapCorrectness ctxOne [97] bbC3 3 ⟨[[97]], 0, 0, 2, 0⟩ [97]
    (by decide) (by decide)
    (fun u => wordWidthChars_nonneg ctxOne.font 3
      (fun _ _ => zero_le_one) (fun _ _ _ => le_refl 0) u)
    (by decide) (by decide)

-- C7
/-- Claim C7 (amended): for every line of the wrapping phase, the
recorded `currWidth` equals the sum of the line's word widths plus one
`spaceWidth` per word — including the first word, hence one `spaceWidth`
more than the width of the words joined with single spaces. -/
theorem C7_currWidthInvariant (c : Context) (text : GoStr) (bb : Rectangle)
    (fontSize : ℤ) (l : Line) (hl : l ∈ wrapLines c text bb fontSize) :
    l.currWidth =
      lineWordsWidth c fontSize l +
        (l.Words.length : ℤ) * spaceWidth c fontSize :=
  (wrapLines_inv c text bb fontSize l hl).1

/-- Witness for claim C7's amended invariant at a concrete wrap. -/
theorem C7_currWidthInvariant_witness :
    (⟨[[97]], 0, 0, 2, 0⟩ : Line).currWidth =
      lineWordsWidth ctxOne 3 ⟨[[97]], 0, 0, 2, 0⟩ +
        ((⟨[[97]], 0, 0, 2, 0⟩ : Line).Words.length : ℤ) * spaceWidth ctxOne 3 :=
  C7_currWidthInvariant ctxOne [97] bbC3 3 ⟨[[97]], 0, 0, 2, 0⟩ (by decide)

/-- Counterexample to claim C7 as stated: at unit advance widths the one
produced line has `currWidth = 2` while the joined string's width is 1. -/
theorem C7_joinedWidthRefuted :
    (wrapLines ctxOne [97] bbC3 3).map
      (fun l => (l.currWidth, wordWidth ctxOne (joinSpace l.Words) 3)) =
      [(2, 1)] ∧ (2:ℤ) ≠ 1 := by
  refine ⟨by decide, by decide⟩

/-- Counterexample to claim C4 as stated: a 60px-wide single word in a
50px-wide box yields a layout of two lines (an empty line precedes the
word's), not exactly one. -/
theorem C4_oneLineRefuted :
    (calculateSize ctxTen [97, 97, 97, 97, 97, 97] bbC4).2.1.length = 2 ∧
    bbC4.Width < wordWidth ctxTen [97, 97, 97, 97, 97, 97]
      (calculateSize ctxTen [97, 97, 97, 97, 97, 97] bbC4).2.2 ∧
    (2:ℕ) ≠ 1 := by
  refine ⟨by decide, by decide, by decide⟩

/-- Witness for claim C4's amended statement at a 60px word in a 50px box. -/
theorem C4_overwideWordTwoLines_witness :
    wrapLines ctxTen [97, 97, 97, 97, 97, 97] bbC4 5 =
      [emptyLine,
        ⟨[[97, 97, 97, 97, 97, 97]], 0, 0,
          spaceWidth ctxTen 5 + wordWidth ctxTen [97, 97, 97, 97, 97, 97] 5, 0⟩] ∧
    (layoutAttempt ctxTen [97, 97, 97, 97, 97, 97] bbC4 5).1.map Line.Words =
      [[], [[97, 97, 97, 97, 97, 97]]] :=
  C4_overwideWordTwoLines ctxTen [97, 97, 97, 97, 97, 97] bbC4 5
    (by decide) (by decide) (by decide) (by decide)

/-- At `ctxC1` (zero metrics, `lineHeight = 0`) the layout height equals
the probed font size, whatever it is. -/
theorem layoutAttempt_ctxC1_bbC5 (s : ℤ) :
    (layoutAttempt ctxC1 [97] bbC5 s).2 = s := by
  simp [layoutAttempt, wrapLines, wrapHard, wrapWords, splitOnByte,
    spaceWidth, wordWidth, wordWidthChars, positionLoop, truncMul,
    ctxC1, bbC5, zeroFont, fzero, addWord, emptyLine]

/-- Witness for claim C5: a box of height 0 fits no size at all. -/
theorem C5_degenerateFit_witness :
    calculateSize ctxC1 [97] bbC5 = (true, (layoutAttempt ctxC1 [97] bbC5 1).1, 1) ∧
    WriteText ctxC1 [97] bbC5 =
      drawLines ctxC1 (layoutAttempt ctxC1 [97] bbC5 1).1 bbC5 1 :=
  C5_degenerateFit ctxC1 [97] bbC5 (by decide)
    (fun s hs => by
      rw [layoutAttempt_ctxC1_bbC5]
      show bbC5.Height < s
      have : bbC5.Height = 0 := by decide
      omega)

/-- Counterexample to claim C6 as stated: with `lineHeight = -1/2` at
size 1 the code's total height is 1 (truncation toward zero), while the
claim's floor-based formula gives 0. -/
theorem C6_floorRefuted :
    (layoutAttempt ctxNegLH [97] bbC3 1).2 = 1 ∧
    ((layoutAttempt ctxNegLH [97] bbC3 1).1.map Line.BaseToBaseHeight).sum +
      floorMul ctxNegLH.lineHeight 1 = 0 ∧
    (1:ℤ) ≠ 0 := by
  refine ⟨by decide, by decide, by decide⟩

/-- Witness for claim C8 at the spec's scenario input `"image.gif"`. -/
theorem C8_unsupportedExtension_witness :
    SetSrcPath envOpenOk ctxC1 (strBytes "image.gif") =
      (some (.unsupported (goToLower (goExt (strBytes "image.gif")))), ctxC1) ∧
    errorMessage (.unsupported (goToLower (goExt (strBytes "image.gif")))) =
      strBytes "Image format not supported: " ++
        goToLower (goExt (strBytes "image.gif")) :=
  C8_unsupportedExtension envOpenOk ctxC1 (strBytes "image.gif") 1 rfl
    (by decide) (by decide) (by decide)

/-- Counterexample to claim C8 as stated: `os.Open` runs before the
extension check, so on a path that fails to open, `SetSrcPath` reports
the I/O error, not the unsupported-format error the claim promises for
every `.gif` path. -/
theorem C8_ioErrorBeforeExtensionCheck :
    SetSrcPath envOpenFail ctxC1 (strBytes "image.gif") =
      (some (.ioError 2), ctxC1) ∧
    goToLower (goExt (strBytes "image.gif")) = strBytes ".gif" ∧
    AnnotateError.ioError 2 ≠ AnnotateError.unsupported (strBytes ".gif") := by
  refine ⟨rfl, by decide, by decide⟩

/-- Witness for claim C9: two lines, the second fails to draw. -/
theorem C9_renderFailurePartialCanvas_witness :
    WriteText ctxFail [97, 10, 98] bbBig =
      (some 7,
        { base := ctxFail.src, srcPaint := ctxFail.fontColor,
          dpi := ctxFail.dpi,
          fontSize := (calculateSize ctxFail [97, 10, 98] bbBig).2.2,
          clip := ctxFail.src.bounds,
          drawn := [(⟨[[97]], 0, 0, 0, 5⟩ : Line)].map
            (fun p => (joinSpace p.Words, p.XPos, p.YPos)) }) :=
  C9_renderFailurePartialCanvas ctxFail [97, 10, 98] bbBig
    [⟨[[97]], 0, 0, 0, 5⟩] [] ⟨[[98]], 0, 5, 0, 5⟩ 7
    (by decide) (by decide) (by decide)

end Annotate
